import Mathlib

/-!
# lifeGameJs: Conway's Life on a toroidal grid (src/js/main.js)

A shallow embedding of the class `LifeGameJs`:

* the neighbour table built by `precomputeNeighbors`,
* the message handler of the web worker (`createWorkerCode`), which computes
  the next generation together with the list of changed cells,
* the controller: its fields and the methods that change them.

JavaScript values are embedded as follows.  Numbers that the program uses as
sizes are natural numbers; cell indices are integers.  A read that yields
`undefined`, and a sum that is `NaN`, is `none`.  The grid is either a
`Uint8Array` or, after `stopGame`, an ordinary array.  Drawing on the canvas
and DOM text are not part of the state.
-/

namespace LifeGameJs

/-! ## JavaScript values -/

/-- The `%` operator of JavaScript on integers: the remainder has the sign of
the dividend. -/
def jsMod (a b : Int) : Int := Int.tmod a b

/-- Largest length of an ordinary array; keys from here on are plain
properties, not elements. -/
def arrayIndexLimit : Int := 4294967295

/-- The two kinds of value the field `grid` holds: a `Uint8Array`
(`new Uint8Array(n)`, or the `newGrid` of a response), or an ordinary array
(`this.grid = []` in `stopGame`), whose elements may be holes and which can
carry properties under keys that are not element indices. -/
inductive GridStore where
  | typed (cells : List Nat)
  | plain (elems : List (Option Nat)) (props : List (Int × Nat))
  deriving DecidableEq

namespace GridStore

/-- The property `length`. -/
def length : GridStore → Nat
  | typed cells => cells.length
  | plain elems _ => elems.length

/-- The read `grid[j]`; `none` is `undefined`. -/
def get : GridStore → Int → Option Nat
  | typed cells, j => if 0 ≤ j then cells[j.toNat]? else none
  | plain elems props, j =>
    if 0 ≤ j ∧ j < arrayIndexLimit then (elems[j.toNat]?).join else props.lookup j

/-- The assignment `grid[j] = v`.  A typed array ignores a write outside its
bounds and stores modulo 256; an ordinary array grows, leaving holes. -/
def put : GridStore → Int → Nat → GridStore
  | typed cells, j, v =>
    if 0 ≤ j ∧ j.toNat < cells.length then typed (cells.set j.toNat (v % 256)) else typed cells
  | plain elems props, j, v =>
    if 0 ≤ j ∧ j < arrayIndexLimit then
      if j.toNat < elems.length then plain (elems.set j.toNat (some v)) props
      else plain (elems ++ List.replicate (j.toNat - elems.length) none ++ [some v]) props
    else plain elems ((j, v) :: props.filter (fun p => p.1 ≠ j))

/-- Every element is the number 0 or the number 1. -/
def Binary : GridStore → Prop
  | typed cells => ∀ v ∈ cells, v = 0 ∨ v = 1
  | plain elems _ => ∀ e ∈ elems, e = some 0 ∨ e = some 1

end GridStore

/-- Truthiness of a value read from the grid: `undefined` and `0` are falsy. -/
def truthy : Option Nat → Bool
  | none => false
  | some v => v != 0

/-! ## precomputeNeighbors -/

/-- The array literal assigned to `neighbors[index]` for the cell `(x, y)`. -/
def neighborEntry (size : Nat) (x y : Nat) : List Int :=
  [ jsMod ((x : Int) - 1 + size) size + jsMod ((y : Int) - 1 + size) size * size,
    (x : Int) + jsMod ((y : Int) - 1 + size) size * size,
    jsMod ((x : Int) + 1) size + jsMod ((y : Int) - 1 + size) size * size,
    jsMod ((x : Int) - 1 + size) size + (y : Int) * size,
    jsMod ((x : Int) + 1) size + (y : Int) * size,
    jsMod ((x : Int) - 1 + size) size + jsMod ((y : Int) + 1 + size) size * size,
    (x : Int) + jsMod ((y : Int) + 1 + size) size * size,
    jsMod ((x : Int) + 1) size + jsMod ((y : Int) + 1 + size) size * size ]

/-- The inner loop `for (let x = 0; x < size; x++)` of `precomputeNeighbors`
for the row `y`. -/
def neighborRow (size y : Nat) (neighbors : List (List Int)) : List (List Int) :=
  (List.range size).foldl
    (fun nbs x => nbs.set (x + y * size) (neighborEntry size x y)) neighbors

/-- The method `precomputeNeighbors(size)`: an array of `size * size` empty
arrays, every entry then assigned in the two nested loops. -/
def precomputeNeighbors (size : Nat) : List (List Int) :=
  (List.range size).foldl (fun nbs y => neighborRow size y nbs)
    (List.replicate (size * size) [])

/-! ## The worker -/

/-- The answer `{ newGrid, changes }` the worker posts. -/
structure StepResponse where
  newGrid : List Nat
  changes : List Nat
  deriving DecidableEq

/-- The addition `sum + grid[neighbor]`: `NaN` as soon as one side is `NaN`
or `undefined`. -/
def jsAdd (sum : Option Nat) (v : Option Nat) : Option Nat :=
  match sum, v with
  | some s, some w => some (s + w)
  | _, _ => none

/-- The count `neighbors[i].reduce((sum, neighbor) => sum + grid[neighbor], 0)`. -/
def liveNeighbors (grid : GridStore) (entry : List Int) : Option Nat :=
  entry.foldl (fun sum neighbor => jsAdd sum (grid.get neighbor)) (some 0)

/-- The value stored in `newGrid[i]`: the conditional expression of the loop
body. -/
def nextCell (grid : GridStore) (entry : List Int) (i : Nat) : Nat :=
  if truthy (grid.get i) then
    (if liveNeighbors grid entry = some 2 ∨ liveNeighbors grid entry = some 3 then 1 else 0)
  else
    (if liveNeighbors grid entry = some 3 then 1 else 0)

/-- One pass of the body of the worker's loop for the index `i`.  `none` is
the `TypeError` of `neighbors[i].reduce` when `neighbors[i]` is `undefined`. -/
def workerBody (grid : GridStore) (neighbors : List (List Int))
    (acc : StepResponse) (i : Nat) : Option StepResponse :=
  match neighbors[i]? with
  | none => none
  | some entry =>
    let newGrid := acc.newGrid.set i (nextCell grid entry i)
    some { newGrid := newGrid,
           changes := if newGrid[i]? ≠ grid.get i then acc.changes ++ [i] else acc.changes }

/-- The worker's message handler applied to the request
`{ grid, size, neighbors }`: the posted response, or `none` when the handler
throws and nothing is posted. -/
def workerStep (grid : GridStore) (size : Nat) (neighbors : List (List Int)) :
    Option StepResponse :=
  (List.range (size * size)).foldlM (workerBody grid neighbors)
    { newGrid := List.replicate (size * size) 0, changes := [] }

/-! ## The controller -/

/-- The fields of a `LifeGameJs` object.  `worker` is `none` for `null`;
a live worker is represented by the responses it has posted that the
controller has not yet received.  `timers` counts the armed `setTimeout`
callbacks of `gameLoop`. -/
structure Game where
  size : Nat
  cellSize : Nat
  speed : Nat
  isRunning : Bool
  grid : GridStore
  neighbors : List (List Int)
  worker : Option (List StepResponse)
  timers : Nat
  deriving DecidableEq

/-- The method `createCanvas`. -/
def createCanvas (s : Game) : Game :=
  { s with grid := GridStore.typed (List.replicate (s.size * s.size) 0),
           neighbors := precomputeNeighbors s.size }

/-- The method `toggleCellState(x, y)`. -/
def toggleCellState (s : Game) (x y : Int) : Game :=
  { s with grid :=
      s.grid.put (x + y * s.size) (if truthy (s.grid.get (x + y * s.size)) then 0 else 1) }

/-- The method `clearGrid`. -/
def clearGrid (s : Game) : Game :=
  { s with grid := GridStore.typed (List.replicate (s.size * s.size) 0) }

/-- The method `randomizeGrid`; `coin i` is the outcome of the test
`Math.random() < 0.5` for the element `i`. -/
def randomizeGrid (s : Game) (coin : Nat → Bool) : Game :=
  { s with grid :=
      GridStore.typed ((List.range (s.size * s.size)).map (fun i => if coin i then 1 else 0)) }

/-- The method `setSize(newSize)`. -/
def setSize (s : Game) (newSize : Nat) : Game :=
  { s with size := newSize, neighbors := precomputeNeighbors newSize }

/-- The method `setCellSize(newCellSize)`. -/
def setCellSize (s : Game) (newCellSize : Nat) : Game :=
  { s with cellSize := newCellSize }

/-- The method `setSpeed(newSpeed)`. -/
def setSpeed (s : Game) (newSpeed : Nat) : Game :=
  { s with speed := newSpeed }

/-- The method `stopGame`. -/
def stopGame (s : Game) : Game :=
  { s with isRunning := false, worker := none,
           grid := GridStore.plain [] [], neighbors := [] }

/-- The method `gameLoop`: when running and a worker exists, post the
request (the worker answers with `workerStep` of it) and arm the timer. -/
def gameLoop (s : Game) : Game :=
  if s.isRunning then
    match s.worker with
    | some posted =>
      { s with worker := some (posted ++ (workerStep s.grid s.size s.neighbors).toList),
               timers := s.timers + 1 }
    | none => stopGame s
  else s

/-- The method `startGame`. -/
def startGame (s : Game) : Game :=
  match s.worker with
  | none => s
  | some _ =>
    let s1 : Game := { s with isRunning := !s.isRunning }
    if s1.isRunning then gameLoop s1 else s1

/-- The handler `worker.onmessage` set in `initializeWorker`. -/
def onmessage (s : Game) (r : StepResponse) : Game :=
  { s with grid := GridStore.typed r.newGrid }

/-- Delivery of the oldest posted response to `worker.onmessage` by the event
loop of the browser; with no worker, or no posted response, nothing is
delivered. -/
def deliver (s : Game) : Game :=
  match s.worker with
  | some (r :: rest) => onmessage { s with worker := some rest } r
  | _ => s

/-- An armed timer of `gameLoop` fires. -/
def timerFire (s : Game) : Game :=
  if s.timers = 0 then s else gameLoop { s with timers := s.timers - 1 }

/-- The method `initializeWorker`: terminate the old worker, create a new one. -/
def initializeWorker (s : Game) : Game :=
  { s with worker := some [] }

/-- The `change` handler of `sizeInput` installed by `setupEventListeners`. -/
def sizeInputChange (s : Game) (newSize : Nat) : Game :=
  createCanvas (setSize s newSize)

/-- The `change` handler of `cellSizeInput` installed by `setupEventListeners`. -/
def cellSizeInputChange (s : Game) (newCellSize : Nat) : Game :=
  createCanvas (setCellSize s newCellSize)

/-- The constructor. -/
def construct (size cellSize speed : Nat) : Game :=
  initializeWorker (createCanvas
    { size := size, cellSize := cellSize, speed := speed, isRunning := false,
      grid := GridStore.typed (List.replicate (size * size) 0),
      neighbors := precomputeNeighbors size, worker := none, timers := 0 })

/-- The invariant of the grid: its length is `size * size` and every value is
0 or 1. -/
def GridInvariant (s : Game) : Prop :=
  s.grid.length = s.size * s.size ∧ s.grid.Binary

/-- The states the controller reaches from its construction through
`createCanvas`, `toggleCellState`, `clearGrid`, `randomizeGrid`, the size
handler (`setSize` followed by `createCanvas`), `setCellSize`, `setSpeed`,
`startGame`, and the handler `onmessage` applied to the response the worker
computes from the current grid, size and table. -/
inductive Reachable : Game → Prop where
  | init (size cellSize speed : Nat) : Reachable (construct size cellSize speed)
  | canvas {s : Game} : Reachable s → Reachable (createCanvas s)
  | toggle {s : Game} (x y : Int) : Reachable s → Reachable (toggleCellState s x y)
  | clear {s : Game} : Reachable s → Reachable (clearGrid s)
  | randomize {s : Game} (coin : Nat → Bool) : Reachable s → Reachable (randomizeGrid s coin)
  | resize {s : Game} (newSize : Nat) : Reachable s → Reachable (sizeInputChange s newSize)
  | cellSize {s : Game} (newCellSize : Nat) : Reachable s → Reachable (setCellSize s newCellSize)
  | speed {s : Game} (newSpeed : Nat) : Reachable s → Reachable (setSpeed s newSpeed)
  | start {s : Game} : Reachable s → Reachable (startGame s)
  | response {s : Game} {r : StepResponse} : Reachable s →
      workerStep s.grid s.size s.neighbors = some r → Reachable (onmessage s r)

/-! ## Closed forms used in the proofs -/

/-- The column (or row) before `x` on a ring of `n` cells. -/
def wrapPred (n x : Nat) : Nat := if x = 0 then n - 1 else x - 1

/-- The column (or row) after `x` on a ring of `n` cells. -/
def wrapSucc (n x : Nat) : Nat := if x + 1 = n then 0 else x + 1

/-- The eight entries of `neighborEntry` as natural numbers. -/
def neighborCells (n x y : Nat) : List Nat :=
  [ wrapPred n x + wrapPred n y * n, x + wrapPred n y * n, wrapSucc n x + wrapPred n y * n,
    wrapPred n x + y * n, wrapSucc n x + y * n,
    wrapPred n x + wrapSucc n y * n, x + wrapSucc n y * n, wrapSucc n x + wrapSucc n y * n ]

/-- The offsets `(dx, dy)` of the eight neighbours, row by row from the top
left. -/
def mooreOffsets : List (Int × Int) :=
  [(-1, -1), (0, -1), (1, -1), (-1, 0), (1, 0), (-1, 1), (0, 1), (1, 1)]

/-- The cell value of a live (`true`) or dead (`false`) cell. -/
def cellOf (b : Bool) : Nat := if b then 1 else 0

/-- The grid of side `n` whose cell `(x, y)`, stored at index `x + y * n`, is
live exactly when `live x y`. -/
def patternGrid (n : Nat) (live : Nat → Nat → Bool) : List Nat :=
  (List.range (n * n)).map (fun i => cellOf (live (i % n) (i / n)))

/-- The number of live cells among the eight toroidal neighbours of `(x, y)`. -/
def liveAround (n : Nat) (live : Nat → Nat → Bool) (x y : Nat) : Nat :=
  cellOf (live (wrapPred n x) (wrapPred n y)) + cellOf (live x (wrapPred n y)) +
  cellOf (live (wrapSucc n x) (wrapPred n y)) + cellOf (live (wrapPred n x) y) +
  cellOf (live (wrapSucc n x) y) + cellOf (live (wrapPred n x) (wrapSucc n y)) +
  cellOf (live x (wrapSucc n y)) + cellOf (live (wrapSucc n x) (wrapSucc n y))

/-- The rule of Life for one cell: its state and the number of live
neighbours give the next state. -/
def lifeRule (alive : Bool) (c : Nat) : Bool :=
  if alive then decide (c = 2 ∨ c = 3) else decide (c = 3)

/-- The next generation of a pattern on the torus of side `n`. -/
def lifeNext (n : Nat) (live : Nat → Nat → Bool) (x y : Nat) : Bool :=
  lifeRule (live x y) (liveAround n live x y)

/-- At most one step away from `c` on a ring of `n` cells. -/
def near (n c z : Nat) : Bool := decide (z = wrapPred n c ∨ z = c ∨ z = wrapSucc n c)

/-- The grid of side `n` whose only live cells are the three cells of row
`cy` in the columns before `cx`, `cx` and after `cx` (columns taken on the
ring, so a blinker across the seam is included). -/
def horizontalBlinker (n cx cy : Nat) : List Nat :=
  patternGrid n (fun x y => decide (y = cy) && near n cx x)

/-- The grid of side `n` whose only live cells are the three cells of column
`cx` in the rows before `cy`, `cy` and after `cy`. -/
def verticalBlinker (n cx cy : Nat) : List Nat :=
  patternGrid n (fun x y => decide (x = cx) && near n cy y)

/-- The four cells in which the horizontal and the vertical blinker around
`(cx, cy)` differ: the two ends of each. -/
def blinkerFlips (n cx cy : Nat) : List Nat :=
  [ wrapPred n cx + cy * n, wrapSucc n cx + cy * n,
    cx + wrapPred n cy * n, cx + wrapSucc n cy * n ]

/-- The value the worker's loop stores at index `i`. -/
def stepCell (grid : GridStore) (neighbors : List (List Int)) (i : Nat) : Nat :=
  nextCell grid (neighbors.getD i []) i

/-- The grid the worker's loop has built when it ends. -/
def stepGrid (grid : GridStore) (size : Nat) (neighbors : List (List Int)) : List Nat :=
  (List.range (size * size)).map (stepCell grid neighbors)

/-- The indices the worker's loop has pushed to `changes` when it ends. -/
def stepChanges (grid : GridStore) (size : Nat) (neighbors : List (List Int)) : List Nat :=
  (List.range (size * size)).filter
    (fun i => decide (some (stepCell grid neighbors i) ≠ grid.get i))

/-! ## Loops that fill an array -/

theorem length_foldl_set {α : Type} (f : Nat → α) (b : Nat) (xs : List Nat) (t : List α) :
    (xs.foldl (fun nbs x => nbs.set (x + b) (f x)) t).length = t.length := by
  induction xs generalizing t with
  | nil => rfl
  | cons x xs ih => simp [List.foldl_cons, ih]

theorem getElem?_foldl_set_range {α : Type} (f : Nat → α) (b k : Nat) (t : List α) (j : Nat) :
    ((List.range k).foldl (fun nbs x => nbs.set (x + b) (f x)) t)[j]? =
      if b ≤ j ∧ j < b + k ∧ j < t.length then some (f (j - b)) else t[j]? := by
  induction k with
  | zero =>
    rw [if_neg (by omega)]; rfl
  | succ k ih =>
    rw [List.range_succ, List.foldl_append, List.foldl_cons, List.foldl_nil,
      List.getElem?_set, ih, length_foldl_set]
    by_cases hj : k + b = j
    · subst hj
      by_cases hl : k + b < t.length
      · rw [if_pos rfl, if_pos hl, if_pos ⟨by omega, by omega, hl⟩, Nat.add_sub_cancel]
      · rw [if_pos rfl, if_neg hl, if_neg (by omega), List.getElem?_eq_none (by omega)]
    · rw [if_neg hj]
      by_cases h1 : b ≤ j ∧ j < b + k ∧ j < t.length
      · rw [if_pos h1, if_pos ⟨h1.1, by omega, h1.2.2⟩]
      · rw [if_neg h1, if_neg (by omega)]

theorem length_neighborRow (size y : Nat) (t : List (List Int)) :
    (neighborRow size y t).length = t.length :=
  length_foldl_set _ _ _ _

theorem getElem?_neighborRow (size y : Nat) (t : List (List Int)) (j : Nat) :
    (neighborRow size y t)[j]? =
      if y * size ≤ j ∧ j < y * size + size ∧ j < t.length then
        some (neighborEntry size (j - y * size) y) else t[j]? :=
  getElem?_foldl_set_range (fun x => neighborEntry size x y) (y * size) size t j

theorem length_foldl_neighborRow (size : Nat) (ys : List Nat) (t : List (List Int)) :
    (ys.foldl (fun nbs y => neighborRow size y nbs) t).length = t.length := by
  induction ys generalizing t with
  | nil => rfl
  | cons y ys ih => simp [List.foldl_cons, ih, length_neighborRow]

theorem getElem?_foldl_neighborRow (size m : Nat) (hm : m ≤ size) (t : List (List Int))
    (ht : t.length = size * size) (j : Nat) :
    ((List.range m).foldl (fun nbs y => neighborRow size y nbs) t)[j]? =
      if j < m * size then some (neighborEntry size (j % size) (j / size)) else t[j]? := by
  induction m with
  | zero => simp
  | succ m ih =>
    have ih := ih (by omega)
    rw [List.range_succ, List.foldl_append, List.foldl_cons, List.foldl_nil,
      getElem?_neighborRow, ih, length_foldl_neighborRow, ht]
    have hle : (m + 1) * size ≤ size * size := Nat.mul_le_mul_right size hm
    have hsucc : (m + 1) * size = m * size + size := Nat.succ_mul m size
    by_cases h1 : m * size ≤ j ∧ j < m * size + size ∧ j < size * size
    · rw [if_pos h1, if_pos (by omega)]
      obtain ⟨r, hr⟩ : ∃ r, j = r + m * size := ⟨j - m * size, by omega⟩
      have hr' : r < size := by omega
      have hpos : 0 < size := by omega
      subst hr
      rw [Nat.add_mul_mod_self_right, Nat.mod_eq_of_lt hr', Nat.add_mul_div_right _ _ hpos,
        Nat.div_eq_of_lt hr', Nat.zero_add, Nat.add_sub_cancel]
    · rw [if_neg h1]
      by_cases h2 : j < m * size
      · rw [if_pos h2, if_pos (by omega)]
      · rw [if_neg h2, if_neg (by omega)]

/-- The table as a function of the index: entry `i` is the array literal of
the cell `(i % size, i / size)`. -/
theorem precomputeNeighbors_eq_map (size : Nat) :
    precomputeNeighbors size =
      (List.range (size * size)).map (fun i => neighborEntry size (i % size) (i / size)) := by
  apply List.ext_getElem?
  intro j
  unfold precomputeNeighbors
  rw [getElem?_foldl_neighborRow size size (Nat.le_refl _) _ (List.length_replicate _ _)]
  by_cases hj : j < size * size
  · rw [if_pos hj, List.getElem?_map, List.getElem?_range hj]
    rfl
  · rw [if_neg hj, List.getElem?_eq_none (by simp; omega), List.getElem?_eq_none (by simp; omega)]

theorem length_precomputeNeighbors (size : Nat) :
    (precomputeNeighbors size).length = size * size := by
  rw [precomputeNeighbors_eq_map]; simp

theorem getElem?_precomputeNeighbors (size i : Nat) (hi : i < size * size) :
    (precomputeNeighbors size)[i]? = some (neighborEntry size (i % size) (i / size)) := by
  rw [precomputeNeighbors_eq_map, List.getElem?_map, List.getElem?_range hi]; rfl

/-! ## The worker's loop -/

theorem set_map_range_append_replicate (f : Nat → Nat) (n k : Nat) (hk : k < n) :
    ((List.range k).map f ++ List.replicate (n - k) 0).set k (f k) =
      (List.range (k + 1)).map f ++ List.replicate (n - (k + 1)) 0 := by
  have h1 : n - k = (n - (k + 1)) + 1 := by omega
  rw [List.set_append_right _ _ (by simp), h1, List.replicate_succ]
  simp [List.range_succ]

theorem workerStep_loop (grid : GridStore) (neighbors : List (List Int)) (n k : Nat)
    (hk : k ≤ n) (hlen : n ≤ neighbors.length) :
    (List.range k).foldlM (workerBody grid neighbors)
        { newGrid := List.replicate n 0, changes := [] } =
      some { newGrid := (List.range k).map (stepCell grid neighbors) ++ List.replicate (n - k) 0,
             changes := (List.range k).filter
               (fun i => decide (some (stepCell grid neighbors i) ≠ grid.get i)) } := by
  induction k with
  | zero => simp
  | succ k ih =>
    have hkl : k < neighbors.length := by omega
    have hent : neighbors[k]? = some (neighbors.getD k []) := by
      rw [List.getD_eq_getElem?_getD, List.getElem?_eq_getElem hkl]; rfl
    rw [List.range_succ, List.foldlM_append, ih (by omega)]
    simp only [List.foldlM_cons, List.foldlM_nil, Option.bind_eq_bind, Option.some_bind,
      workerBody, hent]
    have hcell : nextCell grid (neighbors.getD k []) k = stepCell grid neighbors k := rfl
    rw [hcell, set_map_range_append_replicate (stepCell grid neighbors) n k (by omega)]
    have hget : ((List.range (k + 1)).map (stepCell grid neighbors) ++
        List.replicate (n - (k + 1)) 0)[k]? = some (stepCell grid neighbors k) := by
      rw [List.getElem?_append_left (by simp), List.getElem?_map,
        List.getElem?_range (Nat.lt_succ_self k)]
      rfl
    rw [hget]
    by_cases hc : some (stepCell grid neighbors k) = grid.get k
    · simp [hc, List.range_succ]
    · simp [hc, List.range_succ]

/-- With an entry for every index, the worker answers, and the answer is the
map and the filter over the indices in order. -/
theorem workerStep_eq (grid : GridStore) (size : Nat) (neighbors : List (List Int))
    (hlen : size * size ≤ neighbors.length) :
    workerStep grid size neighbors =
      some { newGrid := stepGrid grid size neighbors,
             changes := stepChanges grid size neighbors } := by
  unfold workerStep
  rw [workerStep_loop grid neighbors (size * size) (size * size) (Nat.le_refl _) hlen]
  simp [stepGrid, stepChanges]

/-! ## The step rule and the change list -/

theorem length_stepGrid (grid : GridStore) (size : Nat) (neighbors : List (List Int)) :
    (stepGrid grid size neighbors).length = size * size := by
  simp [stepGrid]

theorem getElem?_stepGrid (grid : GridStore) (size : Nat) (neighbors : List (List Int))
    (i : Nat) (hi : i < size * size) :
    (stepGrid grid size neighbors)[i]? = some (stepCell grid neighbors i) := by
  unfold stepGrid
  rw [List.getElem?_map, List.getElem?_range hi]; rfl

theorem get_typed_natCast (g : List Nat) (i : Nat) :
    (GridStore.typed g).get (i : Int) = g[i]? := by
  simp [GridStore.get]

theorem foldl_jsAdd_typed (g : List Nat) (entry : List Int)
    (h : ∀ j ∈ entry, 0 ≤ j ∧ j < (g.length : Int)) (a : Nat) :
    entry.foldl (fun sum neighbor => jsAdd sum ((GridStore.typed g).get neighbor)) (some a) =
      some (a + (entry.map (fun j => g.getD j.toNat 0)).sum) := by
  induction entry generalizing a with
  | nil => simp
  | cons j entry ih =>
    have hj := h j (List.mem_cons_self _ _)
    have hlt : j.toNat < g.length := by omega
    have hget : (GridStore.typed g).get j = some (g.getD j.toNat 0) := by
      simp only [GridStore.get, if_pos hj.1]
      rw [List.getD_eq_getElem?_getD, List.getElem?_eq_getElem hlt]; rfl
    have hadd : jsAdd (some a) (some (g.getD j.toNat 0)) = some (a + g.getD j.toNat 0) := rfl
    rw [List.foldl_cons, hget, hadd]
    rw [ih (fun j hj => h j (List.mem_cons_of_mem _ hj)), List.map_cons, List.sum_cons,
      Nat.add_assoc]

/-- On a typed grid and an entry of valid indices, the count is the sum of
the cells the entry names. -/
theorem liveNeighbors_typed (g : List Nat) (entry : List Int)
    (h : ∀ j ∈ entry, 0 ≤ j ∧ j < (g.length : Int)) :
    liveNeighbors (GridStore.typed g) entry =
      some ((entry.map (fun j => g.getD j.toNat 0)).sum) := by
  unfold liveNeighbors
  rw [foldl_jsAdd_typed g entry h 0, Nat.zero_add]

/-! ## The entries of the table -/

theorem jsMod_pred (n x : Nat) (hx : x < n) :
    jsMod ((x : Int) - 1 + n) n = (wrapPred n x : Int) := by
  unfold jsMod wrapPred
  rw [Int.tmod_eq_emod (by omega) (by omega)]
  by_cases h0 : x = 0
  · subst h0
    rw [if_pos rfl, Int.emod_eq_of_lt (by omega) (by omega)]
    omega
  · rw [if_neg h0, Int.add_emod_self, Int.emod_eq_of_lt (by omega) (by omega)]
    omega

theorem jsMod_succ (n x : Nat) (hx : x < n) :
    jsMod ((x : Int) + 1) n = (wrapSucc n x : Int) := by
  unfold jsMod wrapSucc
  rw [Int.tmod_eq_emod (by omega) (by omega)]
  by_cases h0 : x + 1 = n
  · rw [if_pos h0]
    have : ((x : Int) + 1) = n := by omega
    rw [this, Int.emod_self]; rfl
  · rw [if_neg h0, Int.emod_eq_of_lt (by omega) (by omega)]
    omega

theorem jsMod_succ_add (n x : Nat) (hx : x < n) :
    jsMod ((x : Int) + 1 + n) n = (wrapSucc n x : Int) := by
  rw [← jsMod_succ n x hx]
  unfold jsMod
  rw [Int.tmod_eq_emod (by omega) (by omega), Int.tmod_eq_emod (by omega) (by omega),
    Int.add_emod_self]

theorem wrapPred_lt (n x : Nat) (hx : x < n) : wrapPred n x < n := by
  unfold wrapPred; split <;> omega

theorem wrapSucc_lt (n x : Nat) (hx : x < n) : wrapSucc n x < n := by
  unfold wrapSucc; split <;> omega

/-- The array literal, entry by entry, in natural numbers. -/
theorem neighborEntry_eq_cells (n x y : Nat) (hx : x < n) (hy : y < n) :
    neighborEntry n x y = (neighborCells n x y).map (fun (c : Nat) => (c : Int)) := by
  unfold neighborEntry neighborCells
  rw [jsMod_pred n x hx, jsMod_pred n y hy, jsMod_succ n x hx, jsMod_succ_add n y hy]
  simp

theorem mod_lt_of_lt_sq (n i : Nat) (hi : i < n * n) : i % n < n ∧ i / n < n := by
  have hpos : 0 < n := by
    rcases Nat.eq_zero_or_pos n with h | h
    · subst h; simp at hi
    · exact h
  exact ⟨Nat.mod_lt _ hpos, Nat.div_lt_of_lt_mul hi⟩

theorem cell_index_lt (n a b : Nat) (ha : a < n) (hb : b < n) : a + b * n < n * n := by
  have h1 : (b + 1) * n ≤ n * n := Nat.mul_le_mul_right n hb
  have h2 : (b + 1) * n = b * n + n := Nat.succ_mul b n
  omega

theorem neighborCells_lt (n x y : Nat) (hx : x < n) (hy : y < n) :
    ∀ c ∈ neighborCells n x y, c < n * n := by
  have hxm := wrapPred_lt n x hx
  have hxp := wrapSucc_lt n x hx
  have hym := wrapPred_lt n y hy
  have hyp := wrapSucc_lt n y hy
  intro c hc
  simp only [neighborCells, List.mem_cons, List.mem_singleton, List.not_mem_nil, or_false] at hc
  rcases hc with h | h | h | h | h | h | h | h <;> subst h <;> apply cell_index_lt <;> assumption

theorem length_neighborEntry (n x y : Nat) : (neighborEntry n x y).length = 8 := rfl

/-! ## Patterns on the torus -/

theorem wrapPred_spec (n x : Nat) :
    (x = 0 ∧ wrapPred n x = n - 1) ∨ (x ≠ 0 ∧ wrapPred n x = x - 1) := by
  unfold wrapPred; split <;> simp_all

theorem wrapSucc_spec (n x : Nat) :
    (x + 1 = n ∧ wrapSucc n x = 0) ∨ (x + 1 ≠ n ∧ wrapSucc n x = x + 1) := by
  unfold wrapSucc; split <;> simp_all

theorem index_mod (n a b : Nat) (ha : a < n) : (a + b * n) % n = a := by
  rw [Nat.add_mul_mod_self_right, Nat.mod_eq_of_lt ha]

theorem index_div (n a b : Nat) (ha : a < n) : (a + b * n) / n = b := by
  rw [Nat.add_mul_div_right _ _ (by omega), Nat.div_eq_of_lt ha, Nat.zero_add]

theorem length_patternGrid (n : Nat) (live : Nat → Nat → Bool) :
    (patternGrid n live).length = n * n := by
  simp [patternGrid]

theorem getD_patternGrid (n : Nat) (live : Nat → Nat → Bool) (a b : Nat)
    (ha : a < n) (hb : b < n) :
    (patternGrid n live).getD (a + b * n) 0 = cellOf (live a b) := by
  have hlt := cell_index_lt n a b ha hb
  rw [List.getD_eq_getElem?_getD]
  unfold patternGrid
  rw [List.getElem?_map, List.getElem?_range hlt]
  simp only [Option.map_some', Option.getD_some]
  rw [index_mod n a b ha, index_div n a b ha]

theorem truthy_cellOf (b : Bool) : truthy (some (cellOf b)) = b := by
  cases b <;> rfl

/-- The worker's value for the cell `(x, y)` of a pattern is the rule of Life
applied to the pattern's toroidal neighbourhood. -/
theorem stepCell_patternGrid (n : Nat) (live : Nat → Nat → Bool) (i : Nat) (hi : i < n * n) :
    stepCell (GridStore.typed (patternGrid n live)) (precomputeNeighbors n) i =
      cellOf (lifeNext n live (i % n) (i / n)) := by
  obtain ⟨hx, hy⟩ := mod_lt_of_lt_sq n i hi
  have hxm := wrapPred_lt n _ hx
  have hxp := wrapSucc_lt n _ hx
  have hym := wrapPred_lt n _ hy
  have hyp := wrapSucc_lt n _ hy
  have hidx : i % n + i / n * n = i := by
    rw [Nat.mul_comm]; exact Nat.mod_add_div i n
  have hent : (precomputeNeighbors n).getD i [] =
      (neighborCells n (i % n) (i / n)).map (fun (c : Nat) => (c : Int)) := by
    rw [List.getD_eq_getElem?_getD, getElem?_precomputeNeighbors n i hi,
      neighborEntry_eq_cells n _ _ hx hy]
    rfl
  have hcount : liveNeighbors (GridStore.typed (patternGrid n live))
      ((neighborCells n (i % n) (i / n)).map (fun (c : Nat) => (c : Int))) =
        some (liveAround n live (i % n) (i / n)) := by
    rw [liveNeighbors_typed]
    · simp only [neighborCells, List.map_cons, List.map_nil, Int.toNat_ofNat, List.sum_cons,
        List.sum_nil, liveAround]
      rw [getD_patternGrid n live _ _ hxm hym, getD_patternGrid n live _ _ hx hym,
        getD_patternGrid n live _ _ hxp hym, getD_patternGrid n live _ _ hxm hy,
        getD_patternGrid n live _ _ hxp hy, getD_patternGrid n live _ _ hxm hyp,
        getD_patternGrid n live _ _ hx hyp, getD_patternGrid n live _ _ hxp hyp]
      simp only [Nat.add_zero, Nat.add_assoc]
    · intro j hj
      rw [List.mem_map] at hj
      obtain ⟨c, hc, rfl⟩ := hj
      have := neighborCells_lt n _ _ hx hy c hc
      rw [length_patternGrid]
      omega
  have hcell : (GridStore.typed (patternGrid n live)).get (i : Int) =
      some (cellOf (live (i % n) (i / n))) := by
    rw [get_typed_natCast, List.getElem?_eq_getElem (by rw [length_patternGrid]; exact hi)]
    have := getD_patternGrid n live _ _ hx hy
    rw [hidx, List.getD_eq_getElem?_getD,
      List.getElem?_eq_getElem (by rw [length_patternGrid]; exact hi)] at this
    exact congrArg some this
  unfold stepCell nextCell
  rw [hent, hcount, hcell, truthy_cellOf]
  unfold lifeNext lifeRule
  cases live (i % n) (i / n) <;> simp [cellOf]

/-- One step of the worker maps a pattern to its next generation. -/
theorem stepGrid_patternGrid (n : Nat) (live : Nat → Nat → Bool) :
    stepGrid (GridStore.typed (patternGrid n live)) n (precomputeNeighbors n) =
      patternGrid n (lifeNext n live) := by
  unfold stepGrid patternGrid
  apply List.map_congr_left
  intro i hi
  exact stepCell_patternGrid n live i (List.mem_range.mp hi)

theorem patternGrid_congr (n : Nat) (f g : Nat → Nat → Bool)
    (h : ∀ x y, x < n → y < n → f x y = g x y) : patternGrid n f = patternGrid n g := by
  unfold patternGrid
  apply List.map_congr_left
  intro i hi
  obtain ⟨hx, hy⟩ := mod_lt_of_lt_sq n i (List.mem_range.mp hi)
  rw [h _ _ hx hy]

/-! ## The blinker -/

theorem near_iff (n c z : Nat) :
    near n c z = true ↔ (z = wrapPred n c ∨ z = c ∨ z = wrapSucc n c) := by
  simp [near]

theorem near_both (n a c : Nat) (hn : 5 ≤ n) (ha : a < n) (hc : c < n)
    (h1 : near n c (wrapPred n a) = true) (h2 : near n c (wrapSucc n a) = true) : a = c := by
  rw [near_iff] at h1 h2
  have e1 := wrapPred_spec n a
  have e2 := wrapSucc_spec n a
  have e3 := wrapPred_spec n c
  have e4 := wrapSucc_spec n c
  generalize wrapPred n a = am at *
  generalize wrapSucc n a = ap at *
  generalize wrapPred n c = cm at *
  generalize wrapSucc n c = cp at *
  omega

theorem near_side (n a c : Nat) (hn : 5 ≤ n) (ha : a < n) (hc : c < n)
    (h : near n c a = true) :
    near n c (wrapPred n a) = true ∨ near n c (wrapSucc n a) = true := by
  rw [near_iff] at h ⊢
  rw [near_iff]
  have e1 := wrapPred_spec n a
  have e2 := wrapSucc_spec n a
  have e3 := wrapPred_spec n c
  have e4 := wrapSucc_spec n c
  generalize wrapPred n a = am at *
  generalize wrapSucc n a = ap at *
  generalize wrapPred n c = cm at *
  generalize wrapSucc n c = cp at *
  omega

theorem wrapPred_eq_iff (n a c : Nat) (hn : 3 ≤ n) (ha : a < n) (hc : c < n) :
    wrapPred n a = c ↔ a = wrapSucc n c := by
  have e1 := wrapPred_spec n a
  have e4 := wrapSucc_spec n c
  generalize wrapPred n a = am at *
  generalize wrapSucc n c = cp at *
  omega

theorem wrapSucc_eq_iff (n a c : Nat) (hn : 3 ≤ n) (ha : a < n) (hc : c < n) :
    wrapSucc n a = c ↔ a = wrapPred n c := by
  have e1 := wrapSucc_spec n a
  have e4 := wrapPred_spec n c
  generalize wrapSucc n a = am at *
  generalize wrapPred n c = cp at *
  omega

theorem wrap_distinct (n c : Nat) (hn : 3 ≤ n) (_hc : c < n) :
    wrapPred n c ≠ c ∧ wrapSucc n c ≠ c ∧ wrapPred n c ≠ wrapSucc n c := by
  have e1 := wrapSucc_spec n c
  have e4 := wrapPred_spec n c
  generalize wrapSucc n c = am at *
  generalize wrapPred n c = cp at *
  omega

/-- The shape of the three-cell test along one axis: the cell itself is the
centre exactly when both its ring neighbours pass the test. -/
theorem near_profile (n a c : Nat) (hn : 5 ≤ n) (ha : a < n) (hc : c < n) :
    decide (a = c) = (near n c (wrapPred n a) && near n c (wrapSucc n a)) ∧
    (near n c a = true → (near n c (wrapPred n a) || near n c (wrapSucc n a)) = true) ∧
    (decide (a = c) = true → near n c a = true) := by
  refine ⟨?_, ?_, ?_⟩
  · rw [Bool.eq_iff_iff]
    simp only [decide_eq_true_eq, Bool.and_eq_true]
    constructor
    · rintro rfl
      exact ⟨(near_iff _ _ _).mpr (Or.inl rfl), (near_iff _ _ _).mpr (Or.inr (Or.inr rfl))⟩
    · rintro ⟨h1, h2⟩
      exact near_both n a c hn ha hc h1 h2
  · intro h
    simpa [Bool.or_eq_true] using near_side n a c hn ha hc h
  · intro h
    rw [decide_eq_true_eq] at h
    exact (near_iff _ _ _).mpr (Or.inr (Or.inl h))

/-- The shape of the one-cell test along one axis: the three tests on the
cell and its ring neighbours exclude each other, and one of them passes
exactly when the cell is near the centre. -/
theorem single_profile (n a c : Nat) (hn : 3 ≤ n) (ha : a < n) (hc : c < n) :
    near n c a = (decide (wrapPred n a = c) || decide (a = c) || decide (wrapSucc n a = c)) ∧
    (decide (wrapPred n a = c) && decide (a = c)) = false ∧
    (decide (wrapPred n a = c) && decide (wrapSucc n a = c)) = false ∧
    (decide (a = c) && decide (wrapSucc n a = c)) = false := by
  have d := wrap_distinct n a hn ha
  refine ⟨?_, ?_, ?_, ?_⟩
  · rw [Bool.eq_iff_iff, near_iff]
    simp only [Bool.or_eq_true, decide_eq_true_eq]
    rw [wrapPred_eq_iff n a c hn ha hc, wrapSucc_eq_iff n a c hn ha hc]
    tauto
  · simp only [Bool.and_eq_false_iff, decide_eq_false_iff_not]
    omega
  · simp only [Bool.and_eq_false_iff, decide_eq_false_iff_not]
    omega
  · simp only [Bool.and_eq_false_iff, decide_eq_false_iff_not]
    omega

set_option maxRecDepth 100000 in
theorem rule_row_to_column :
    ∀ tm t0 tp s0 um u0 up w0 : Bool,
      s0 = (tm && tp) → (t0 = true → (tm || tp) = true) → (s0 = true → t0 = true) →
      w0 = (um || u0 || up) → (um && u0) = false → (um && up) = false → (u0 && up) = false →
      lifeRule (u0 && t0)
        (cellOf (um && tm) + cellOf (um && t0) + cellOf (um && tp) + cellOf (u0 && tm) +
          cellOf (u0 && tp) + cellOf (up && tm) + cellOf (up && t0) + cellOf (up && tp)) =
        (s0 && w0) := by
  decide

set_option maxRecDepth 100000 in
theorem rule_column_to_row :
    ∀ tm t0 tp s0 um u0 up w0 : Bool,
      s0 = (tm && tp) → (t0 = true → (tm || tp) = true) → (s0 = true → t0 = true) →
      w0 = (um || u0 || up) → (um && u0) = false → (um && up) = false → (u0 && up) = false →
      lifeRule (u0 && t0)
        (cellOf (um && tm) + cellOf (u0 && tm) + cellOf (up && tm) + cellOf (um && t0) +
          cellOf (up && t0) + cellOf (um && tp) + cellOf (u0 && tp) + cellOf (up && tp)) =
        (s0 && w0) := by
  decide

theorem lifeNext_horizontal (n cx cy x y : Nat) (hn : 5 ≤ n) (hcx : cx < n) (hcy : cy < n)
    (hx : x < n) (hy : y < n) :
    lifeNext n (fun x y => decide (y = cy) && near n cx x) x y =
      (decide (x = cx) && near n cy y) := by
  obtain ⟨p1, p2, p3⟩ := near_profile n x cx hn hx hcx
  obtain ⟨q1, q2, q3, q4⟩ := single_profile n y cy (by omega) hy hcy
  exact rule_row_to_column _ _ _ _ _ _ _ _ p1 p2 p3 q1 q2 q3 q4

theorem lifeNext_vertical (n cx cy x y : Nat) (hn : 5 ≤ n) (hcx : cx < n) (hcy : cy < n)
    (hx : x < n) (hy : y < n) :
    lifeNext n (fun x y => decide (x = cx) && near n cy y) x y =
      (decide (y = cy) && near n cx x) := by
  obtain ⟨p1, p2, p3⟩ := near_profile n y cy hn hy hcy
  obtain ⟨q1, q2, q3, q4⟩ := single_profile n x cx (by omega) hx hcx
  exact rule_column_to_row _ _ _ _ _ _ _ _ p1 p2 p3 q1 q2 q3 q4

/-- One step turns the horizontal blinker into the vertical one. -/
theorem stepGrid_horizontalBlinker (n cx cy : Nat) (hn : 5 ≤ n) (hcx : cx < n) (hcy : cy < n) :
    stepGrid (GridStore.typed (horizontalBlinker n cx cy)) n (precomputeNeighbors n) =
      verticalBlinker n cx cy := by
  unfold horizontalBlinker verticalBlinker
  rw [stepGrid_patternGrid]
  exact patternGrid_congr n _ _ (fun x y hx hy => lifeNext_horizontal n cx cy x y hn hcx hcy hx hy)

/-- One step turns the vertical blinker into the horizontal one. -/
theorem stepGrid_verticalBlinker (n cx cy : Nat) (hn : 5 ≤ n) (hcx : cx < n) (hcy : cy < n) :
    stepGrid (GridStore.typed (verticalBlinker n cx cy)) n (precomputeNeighbors n) =
      horizontalBlinker n cx cy := by
  unfold horizontalBlinker verticalBlinker
  rw [stepGrid_patternGrid]
  exact patternGrid_congr n _ _ (fun x y hx hy => lifeNext_vertical n cx cy x y hn hcx hcy hx hy)

theorem horizontalBlinker_ne_vertical (n cx cy : Nat) (hn : 5 ≤ n) (hcx : cx < n)
    (hcy : cy < n) : verticalBlinker n cx cy ≠ horizontalBlinker n cx cy := by
  intro h
  have hp := wrapSucc_lt n cx hcx
  have d := wrap_distinct n cx (by omega) hcx
  have h1 := getD_patternGrid n (fun x y => decide (y = cy) && near n cx x) _ _ hp hcy
  have h2 := getD_patternGrid n (fun x y => decide (x = cx) && near n cy y) _ _ hp hcy
  unfold verticalBlinker horizontalBlinker at h
  rw [h, h1] at h2
  have e1 : near n cx (wrapSucc n cx) = true := (near_iff _ _ _).mpr (Or.inr (Or.inr rfl))
  have e2 : decide (wrapSucc n cx = cx) = false := decide_eq_false d.2.1
  simp [e1, e2, cellOf] at h2

/-! ## The change list of the blinker -/

theorem stepChanges_eq_filter (g : List Nat) (n : Nat) (t : List (List Int)) (g1 : List Nat)
    (hg : g.length = n * n) (h1 : stepGrid (GridStore.typed g) n t = g1) :
    stepChanges (GridStore.typed g) n t =
      (List.range (n * n)).filter (fun i => decide (g1.getD i 0 ≠ g.getD i 0)) := by
  unfold stepChanges
  apply List.filter_congr
  intro i hi
  have hi := List.mem_range.mp hi
  have e1 := getElem?_stepGrid (GridStore.typed g) n t i hi
  rw [h1] at e1
  have e2 : g[i]? = some (g.getD i 0) := by
    rw [List.getD_eq_getElem?_getD, List.getElem?_eq_getElem (by omega)]; rfl
  have e3 : g1.getD i 0 = stepCell (GridStore.typed g) t i := by
    rw [List.getD_eq_getElem?_getD, e1]; rfl
  rw [get_typed_natCast, e2, e3]
  simp

theorem index_eq_iff (n a b i : Nat) (ha : a < n) :
    i = a + b * n ↔ i % n = a ∧ i / n = b := by
  constructor
  · rintro rfl
    exact ⟨index_mod n a b ha, index_div n a b ha⟩
  · rintro ⟨rfl, rfl⟩
    rw [Nat.mul_comm]; exact (Nat.mod_add_div i n).symm

theorem index_inj (n a b a1 b1 : Nat) (ha : a < n) (_ha1 : a1 < n) :
    a + b * n = a1 + b1 * n ↔ a = a1 ∧ b = b1 := by
  constructor
  · intro h
    have h1 := (index_eq_iff n a b (a1 + b1 * n) ha).mp h.symm
    rw [index_mod n a1 b1 _ha1, index_div n a1 b1 _ha1] at h1
    exact ⟨h1.1.symm, h1.2.symm⟩
  · rintro ⟨rfl, rfl⟩; rfl

theorem blinker_differs_iff (n cx cy x y : Nat) (hn : 5 ≤ n) (hcx : cx < n) (hcy : cy < n) :
    cellOf (decide (x = cx) && near n cy y) ≠ cellOf (decide (y = cy) && near n cx x) ↔
      (y = cy ∧ (x = wrapPred n cx ∨ x = wrapSucc n cx)) ∨
      (x = cx ∧ (y = wrapPred n cy ∨ y = wrapSucc n cy)) := by
  have dx := wrap_distinct n cx (by omega) hcx
  have dy := wrap_distinct n cy (by omega) hcy
  have hne : ∀ a b : Bool, cellOf a ≠ cellOf b ↔ a ≠ b := by decide
  rw [hne, Ne, Bool.eq_iff_iff]
  simp only [Bool.and_eq_true, decide_eq_true_eq, near_iff]
  generalize wrapPred n cx = cxm at *
  generalize wrapSucc n cx = cxp at *
  generalize wrapPred n cy = cym at *
  generalize wrapSucc n cy = cyp at *
  omega

theorem mem_blinkerFlips (n cx cy i : Nat) (hcx : cx < n) :
    i ∈ blinkerFlips n cx cy ↔
      (i / n = cy ∧ (i % n = wrapPred n cx ∨ i % n = wrapSucc n cx)) ∨
      (i % n = cx ∧ (i / n = wrapPred n cy ∨ i / n = wrapSucc n cy)) := by
  have hxm := wrapPred_lt n cx hcx
  have hxp := wrapSucc_lt n cx hcx
  simp only [blinkerFlips, List.mem_cons, List.mem_singleton, List.not_mem_nil, or_false]
  rw [index_eq_iff n _ _ i hxm, index_eq_iff n _ _ i hxp, index_eq_iff n _ _ i hcx,
    index_eq_iff n _ _ i hcx]
  tauto

theorem nodup_blinkerFlips (n cx cy : Nat) (hn : 5 ≤ n) (hcx : cx < n) (hcy : cy < n) :
    (blinkerFlips n cx cy).Nodup := by
  have hxm := wrapPred_lt n cx hcx
  have hxp := wrapSucc_lt n cx hcx
  have dx := wrap_distinct n cx (by omega) hcx
  have dy := wrap_distinct n cy (by omega) hcy
  simp only [blinkerFlips, List.nodup_cons, List.mem_cons, List.mem_singleton,
    List.not_mem_nil, or_false, not_false_eq_true, List.nodup_nil, and_true,
    index_inj n _ _ _ _ hxm hxp, index_inj n _ _ _ _ hxm hcx, index_inj n _ _ _ _ hxp hcx,
    index_inj n _ _ _ _ hcx hcx]
  generalize wrapPred n cx = cxm at *
  generalize wrapSucc n cx = cxp at *
  generalize wrapPred n cy = cym at *
  generalize wrapSucc n cy = cyp at *
  omega

theorem length_horizontalBlinker (n cx cy : Nat) :
    (horizontalBlinker n cx cy).length = n * n := length_patternGrid n _

theorem length_verticalBlinker (n cx cy : Nat) :
    (verticalBlinker n cx cy).length = n * n := length_patternGrid n _

/-- The cells the first step of the horizontal blinker changes. -/
theorem mem_stepChanges_horizontalBlinker (n cx cy i : Nat) (hn : 5 ≤ n) (hcx : cx < n)
    (hcy : cy < n) :
    i ∈ stepChanges (GridStore.typed (horizontalBlinker n cx cy)) n (precomputeNeighbors n) ↔
      i ∈ blinkerFlips n cx cy := by
  rw [stepChanges_eq_filter _ n _ _ (length_horizontalBlinker n cx cy)
    (stepGrid_horizontalBlinker n cx cy hn hcx hcy), mem_blinkerFlips n cx cy i hcx]
  simp only [List.mem_filter, List.mem_range, decide_eq_true_eq]
  have hxm := wrapPred_lt n cx hcx
  have hxp := wrapSucc_lt n cx hcx
  have hym := wrapPred_lt n cy hcy
  have hyp := wrapSucc_lt n cy hcy
  have hpos : 0 < n := by omega
  constructor
  · rintro ⟨hi, hne⟩
    obtain ⟨hx, hy⟩ := mod_lt_of_lt_sq n i hi
    have hidx : i % n + i / n * n = i := by rw [Nat.mul_comm]; exact Nat.mod_add_div i n
    have e1 := getD_patternGrid n (fun x y => decide (x = cx) && near n cy y) _ _ hx hy
    have e2 := getD_patternGrid n (fun x y => decide (y = cy) && near n cx x) _ _ hx hy
    rw [hidx] at e1 e2
    unfold verticalBlinker horizontalBlinker at hne
    rw [e1, e2] at hne
    exact (blinker_differs_iff n cx cy _ _ hn hcx hcy).mp hne
  · intro h
    have hx : i % n < n := Nat.mod_lt _ hpos
    have hy : i / n < n := by
      rcases h with ⟨h1, _⟩ | ⟨_, h2 | h2⟩
      · omega
      · omega
      · omega
    have hidx : i % n + i / n * n = i := by rw [Nat.mul_comm]; exact Nat.mod_add_div i n
    have hi : i < n * n := by
      have := cell_index_lt n _ _ hx hy
      omega
    refine ⟨hi, ?_⟩
    have e1 := getD_patternGrid n (fun x y => decide (x = cx) && near n cy y) _ _ hx hy
    have e2 := getD_patternGrid n (fun x y => decide (y = cy) && near n cx x) _ _ hx hy
    rw [hidx] at e1 e2
    unfold verticalBlinker horizontalBlinker
    rw [e1, e2]
    exact (blinker_differs_iff n cx cy _ _ hn hcx hcy).mpr h

theorem nodup_stepChanges (grid : GridStore) (n : Nat) (t : List (List Int)) :
    (stepChanges grid n t).Nodup :=
  (List.nodup_range _).filter _

theorem length_stepChanges_horizontalBlinker (n cx cy : Nat) (hn : 5 ≤ n) (hcx : cx < n)
    (hcy : cy < n) :
    (stepChanges (GridStore.typed (horizontalBlinker n cx cy)) n
      (precomputeNeighbors n)).length = 4 := by
  have hperm := (List.perm_ext_iff_of_nodup (nodup_stepChanges _ n _)
    (nodup_blinkerFlips n cx cy hn hcx hcy)).mpr
    (fun i => mem_stepChanges_horizontalBlinker n cx cy i hn hcx hcy)
  rw [hperm.length_eq]; rfl

/-- The second step changes the same cells as the first. -/
theorem stepChanges_verticalBlinker (n cx cy : Nat) (hn : 5 ≤ n) (hcx : cx < n)
    (hcy : cy < n) :
    stepChanges (GridStore.typed (verticalBlinker n cx cy)) n (precomputeNeighbors n) =
      stepChanges (GridStore.typed (horizontalBlinker n cx cy)) n (precomputeNeighbors n) := by
  rw [stepChanges_eq_filter _ n _ _ (length_horizontalBlinker n cx cy)
      (stepGrid_horizontalBlinker n cx cy hn hcx hcy),
    stepChanges_eq_filter _ n _ _ (length_verticalBlinker n cx cy)
      (stepGrid_verticalBlinker n cx cy hn hcx hcy)]
  apply List.filter_congr
  intro i _
  exact decide_eq_decide.mpr ne_comm

/-- C1 (step rule): on a grid `g` of `N * N` cells with values 0 and 1 and a
table `t` of `N * N` entries whose indices all lie in `[0, N * N)`, the worker
answers, and for every cell `i` the new grid holds 1 exactly when `g[i] = 1`
and the count `c` is 2 or 3, or `g[i] = 0` and `c = 3`, and 0 otherwise, where
`c` is the sum of `g` over the entries of `t[i]`. -/
theorem workerStep_rule (N : Nat) (g : List Nat) (t : List (List Int))
    (hg : g.length = N * N) (hbin : ∀ v ∈ g, v = 0 ∨ v = 1) (ht : t.length = N * N)
    (hidx : ∀ e ∈ t, ∀ j ∈ e, 0 ≤ j ∧ j < ((N * N : Nat) : Int))
    (i : Nat) (hi : i < N * N) :
    ∃ r, workerStep (GridStore.typed g) N t = some r ∧ r.newGrid.length = N * N ∧
      r.newGrid[i]? = some
        (if (g[i]? = some 1 ∧
              (((t.getD i []).map (fun j => g.getD j.toNat 0)).sum = 2 ∨
               ((t.getD i []).map (fun j => g.getD j.toNat 0)).sum = 3)) ∨
            (g[i]? = some 0 ∧ ((t.getD i []).map (fun j => g.getD j.toNat 0)).sum = 3)
         then 1 else 0) := by
  refine ⟨_, workerStep_eq _ N t (by omega), length_stepGrid _ _ _, ?_⟩
  rw [getElem?_stepGrid _ _ _ i hi]
  have hit : i < t.length := by omega
  have hig : i < g.length := by omega
  have hmem : t.getD i [] ∈ t := by
    rw [List.getD_eq_getElem?_getD, List.getElem?_eq_getElem hit]
    exact List.getElem_mem _
  have hcount := liveNeighbors_typed g (t.getD i []) (fun j hj => by
    have := hidx _ hmem j hj
    rw [hg]; exact this)
  have hgi : g[i]? = some g[i] := List.getElem?_eq_getElem hig
  have hv := hbin g[i] (List.getElem_mem _)
  simp only [stepCell, nextCell, hcount, get_typed_natCast, hgi, truthy, Option.some.injEq]
  rcases hv with hv | hv <;> simp [hv]

theorem workerStep_rule_witness :
    ∃ r, workerStep (GridStore.typed [0, 1, 1, 1]) 2 [[1, 2, 3], [0, 2], [3], []] = some r ∧
      r.newGrid.length = 2 * 2 ∧
      r.newGrid[0]? = some
        (if (([0, 1, 1, 1] : List Nat)[0]? = some 1 ∧
              (((([[1, 2, 3], [0, 2], [3], []] : List (List Int)).getD 0 []).map
                  (fun j => ([0, 1, 1, 1] : List Nat).getD j.toNat 0)).sum = 2 ∨
               ((([[1, 2, 3], [0, 2], [3], []] : List (List Int)).getD 0 []).map
                  (fun j => ([0, 1, 1, 1] : List Nat).getD j.toNat 0)).sum = 3)) ∨
            (([0, 1, 1, 1] : List Nat)[0]? = some 0 ∧
              ((([[1, 2, 3], [0, 2], [3], []] : List (List Int)).getD 0 []).map
                  (fun j => ([0, 1, 1, 1] : List Nat).getD j.toNat 0)).sum = 3)
         then 1 else 0) :=
  workerStep_rule 2 [0, 1, 1, 1] [[1, 2, 3], [0, 2], [3], []] (by decide) (by decide)
    (by decide) (by decide) 0 (by decide)

/-- C2 (change list): on a grid of `N * N` cells and a table of `N * N`
entries the worker answers; its list `changes` holds an index `i` exactly when
`g[i]` differs from `newGrid[i]`, holds no index twice, and is in ascending
order. -/
theorem workerStep_changes_exact (N : Nat) (g : List Nat) (t : List (List Int))
    (hg : g.length = N * N) (ht : t.length = N * N) :
    ∃ r, workerStep (GridStore.typed g) N t = some r ∧
      (∀ i, i ∈ r.changes ↔ g[i]? ≠ r.newGrid[i]?) ∧
      r.changes.Nodup ∧ r.changes.Pairwise (fun a b => a < b) := by
  refine ⟨_, workerStep_eq _ N t (by omega), ?_, ?_, ?_⟩
  · intro i
    simp only [stepChanges, List.mem_filter, List.mem_range, decide_eq_true_eq,
      get_typed_natCast]
    constructor
    · rintro ⟨hi, hne⟩
      rw [getElem?_stepGrid _ _ _ i hi]
      exact fun h => hne h.symm
    · intro hne
      have hi : i < N * N := by
        by_contra hge
        apply hne
        rw [List.getElem?_eq_none (by omega),
          List.getElem?_eq_none (by rw [length_stepGrid]; omega)]
      refine ⟨hi, ?_⟩
      rw [getElem?_stepGrid _ _ _ i hi] at hne
      exact fun h => hne h.symm
  · exact (List.nodup_range _).filter _
  · exact (List.pairwise_lt_range _).filter _

theorem workerStep_changes_exact_witness :
    ∃ r, workerStep (GridStore.typed [0, 1, 1, 1]) 2 [[1, 2, 3], [0, 2], [3], []] = some r ∧
      (∀ i, i ∈ r.changes ↔ ([0, 1, 1, 1] : List Nat)[i]? ≠ r.newGrid[i]?) ∧
      r.changes.Nodup ∧ r.changes.Pairwise (fun a b => a < b) :=
  workerStep_changes_exact 2 [0, 1, 1, 1] [[1, 2, 3], [0, 2], [3], []] (by decide) (by decide)

theorem jsMod_pred_emod (n x : Nat) (hx : x < n) :
    jsMod ((x : Int) - 1 + n) n = ((x : Int) + (-1)) % (n : Int) := by
  unfold jsMod
  rw [Int.tmod_eq_emod (by omega) (by omega), Int.add_emod_self]
  rfl

theorem jsMod_succ_emod (n x : Nat) :
    jsMod ((x : Int) + 1) n = ((x : Int) + 1) % (n : Int) := by
  unfold jsMod
  rw [Int.tmod_eq_emod (by omega) (by omega)]

theorem jsMod_succ_add_emod (n x : Nat) :
    jsMod ((x : Int) + 1 + n) n = ((x : Int) + 1) % (n : Int) := by
  unfold jsMod
  rw [Int.tmod_eq_emod (by omega) (by omega), Int.add_emod_self]

theorem natCast_eq_emod (n x : Nat) (hx : x < n) :
    (x : Int) = ((x : Int) + 0) % (n : Int) := by
  rw [Int.add_zero, Int.emod_eq_of_lt (by omega) (by omega)]

theorem neighborEntry_eq_offsets (n x y : Nat) (hx : x < n) (hy : y < n) :
    neighborEntry n x y =
      mooreOffsets.map (fun d =>
        ((x : Int) + d.1) % (n : Int) + (((y : Int) + d.2) % (n : Int)) * (n : Int)) := by
  unfold neighborEntry mooreOffsets
  simp only [List.map_cons, List.map_nil]
  rw [jsMod_pred_emod n x hx, jsMod_pred_emod n y hy, jsMod_succ_emod n x,
    jsMod_succ_add_emod n y, ← natCast_eq_emod n x hx, ← natCast_eq_emod n y hy]

/-- C3 (toroidal neighbour table): for a cell `(x, y)` of the grid of side
`N`, the entry `precomputeNeighbors(N)[x + y * N]` is the list of the indices
`((x + dx) mod N) + ((y + dy) mod N) * N` over the offsets `(-1,-1), (0,-1),
(1,-1), (-1,0), (1,0), (-1,1), (0,1), (1,1)` in this order, `mod` being the
non-negative remainder; and for `N = 5` the entry of the cell `(0, 0)`
contains the indices of `(4, 4)`, `(4, 0)` and `(0, 4)`. -/
theorem precomputeNeighbors_toroidal (N x y : Nat) (hx : x < N) (hy : y < N) :
    (precomputeNeighbors N)[x + y * N]? =
        some (mooreOffsets.map (fun d =>
          ((x : Int) + d.1) % (N : Int) + (((y : Int) + d.2) % (N : Int)) * (N : Int))) ∧
      ∃ e, (precomputeNeighbors 5)[0 + 0 * 5]? = some e ∧
        ((4 : Int) + 4 * 5) ∈ e ∧ ((4 : Int) + 0 * 5) ∈ e ∧ ((0 : Int) + 4 * 5) ∈ e := by
  constructor
  · rw [getElem?_precomputeNeighbors N _ (cell_index_lt N x y hx hy), index_mod N x y hx,
      index_div N x y hx, neighborEntry_eq_offsets N x y hx hy]
  · exact ⟨[24, 20, 21, 4, 1, 9, 5, 6], by decide, by decide, by decide, by decide⟩

theorem precomputeNeighbors_toroidal_witness :
    (precomputeNeighbors 5)[4 + 0 * 5]? =
        some (mooreOffsets.map (fun d =>
          (((4 : Nat) : Int) + d.1) % ((5 : Nat) : Int) +
            ((((0 : Nat) : Int) + d.2) % ((5 : Nat) : Int)) * ((5 : Nat) : Int))) ∧
      ∃ e, (precomputeNeighbors 5)[0 + 0 * 5]? = some e ∧
        ((4 : Int) + 4 * 5) ∈ e ∧ ((4 : Int) + 0 * 5) ∈ e ∧ ((0 : Int) + 4 * 5) ∈ e :=
  precomputeNeighbors_toroidal 5 4 0 (by decide) (by decide)

theorem nodup_neighborCells (n x y : Nat) (hn : 3 ≤ n) (hx : x < n) (hy : y < n) :
    (neighborCells n x y).Nodup := by
  have hxm := wrapPred_lt n x hx
  have hxp := wrapSucc_lt n x hx
  have dx := wrap_distinct n x hn hx
  have dy := wrap_distinct n y hn hy
  simp only [neighborCells, List.nodup_cons, List.mem_cons, List.mem_singleton,
    List.not_mem_nil, or_false, not_false_eq_true, List.nodup_nil, and_true,
    index_inj n _ _ _ _ hxm hxm, index_inj n _ _ _ _ hxm hx, index_inj n _ _ _ _ hxm hxp,
    index_inj n _ _ _ _ hx hxm, index_inj n _ _ _ _ hx hx, index_inj n _ _ _ _ hx hxp,
    index_inj n _ _ _ _ hxp hxm, index_inj n _ _ _ _ hxp hx, index_inj n _ _ _ _ hxp hxp]
  generalize wrapPred n x = xm at *
  generalize wrapSucc n x = xp at *
  generalize wrapPred n y = ym at *
  generalize wrapSucc n y = yp at *
  omega

/-- C4 (well-formed table): for `N ≥ 3` the table has `N * N` entries, and the
entry of every cell has exactly 8 indices, all in `[0, N * N)` and pairwise
distinct. -/
theorem precomputeNeighbors_wellFormed (N : Nat) (hN : 3 ≤ N) :
    (precomputeNeighbors N).length = N * N ∧
      ∀ i, i < N * N → ∃ e, (precomputeNeighbors N)[i]? = some e ∧ e.length = 8 ∧
        (∀ j ∈ e, 0 ≤ j ∧ j < ((N * N : Nat) : Int)) ∧ e.Nodup := by
  refine ⟨length_precomputeNeighbors N, fun i hi => ?_⟩
  obtain ⟨hx, hy⟩ := mod_lt_of_lt_sq N i hi
  refine ⟨_, getElem?_precomputeNeighbors N i hi, length_neighborEntry _ _ _, ?_, ?_⟩
  · intro j hj
    rw [neighborEntry_eq_cells N _ _ hx hy, List.mem_map] at hj
    obtain ⟨c, hc, rfl⟩ := hj
    have := neighborCells_lt N _ _ hx hy c hc
    omega
  · rw [neighborEntry_eq_cells N _ _ hx hy]
    exact (nodup_neighborCells N _ _ hN hx hy).map (fun a b h => Int.ofNat.inj h)

theorem precomputeNeighbors_wellFormed_witness :
    (precomputeNeighbors 3).length = 3 * 3 ∧
      ∀ i, i < 3 * 3 → ∃ e, (precomputeNeighbors 3)[i]? = some e ∧ e.length = 8 ∧
        (∀ j ∈ e, 0 ≤ j ∧ j < ((3 * 3 : Nat) : Int)) ∧ e.Nodup :=
  precomputeNeighbors_wellFormed 3 (by decide)

theorem getElem?_eq_some_getD (l : List Nat) (i : Nat) (h : i < l.length) :
    l[i]? = some (l.getD i 0) := by
  rw [List.getD_eq_getElem?_getD, List.getElem?_eq_getElem h]; rfl

theorem eq_patternGrid (n : Nat) (g : List Nat) (live : Nat → Nat → Bool)
    (hlen : g.length = n * n)
    (hcells : ∀ x, x < n → ∀ y, y < n → g.getD (x + y * n) 0 = cellOf (live x y)) :
    g = patternGrid n live := by
  apply List.ext_getElem?
  intro i
  by_cases hi : i < n * n
  · obtain ⟨hx, hy⟩ := mod_lt_of_lt_sq n i hi
    have hidx : i % n + i / n * n = i := by rw [Nat.mul_comm]; exact Nat.mod_add_div i n
    have h1 := hcells _ hx _ hy
    have h2 := getD_patternGrid n live _ _ hx hy
    rw [hidx] at h1 h2
    rw [getElem?_eq_some_getD g i (by omega),
      getElem?_eq_some_getD _ i (by rw [length_patternGrid]; exact hi), h1, h2]
  · rw [List.getElem?_eq_none (by omega),
      List.getElem?_eq_none (by rw [length_patternGrid]; omega)]

/-- A grid whose only live cells are the three cells of row `cy` around the
column `cx` is the horizontal blinker. -/
theorem eq_horizontalBlinker (n cx cy : Nat) (g : List Nat) (hlen : g.length = n * n)
    (hcells : ∀ x, x < n → ∀ y, y < n → g.getD (x + y * n) 0 =
      if y = cy ∧ (x = wrapPred n cx ∨ x = cx ∨ x = wrapSucc n cx) then 1 else 0) :
    g = horizontalBlinker n cx cy := by
  apply eq_patternGrid n g _ hlen
  intro x hx y hy
  rw [hcells x hx y hy]
  unfold cellOf near
  by_cases h1 : y = cy <;> by_cases h2 : (x = wrapPred n cx ∨ x = cx ∨ x = wrapSucc n cx) <;>
    simp [h1, h2]

/-- C5 (blinker period): let `g` be a grid of side `N ≥ 5` whose only live
cells are three horizontally adjacent cells of one row: the cells of row `cy`
in the column `cx` and the columns before and after it (on the ring of
columns, so the plain blinkers `x, x + 1, x + 2` and those across the seam are
all covered).  The worker's step with the table `precomputeNeighbors(N)`
answers with a grid that differs from `g`, and the step applied to that grid
answers with exactly `g`. -/
theorem blinker_period (N cx cy : Nat) (g : List Nat) (hN : 5 ≤ N) (hcx : cx < N)
    (hcy : cy < N) (hlen : g.length = N * N)
    (hcells : ∀ x, x < N → ∀ y, y < N → g.getD (x + y * N) 0 =
      if y = cy ∧ (x = wrapPred N cx ∨ x = cx ∨ x = wrapSucc N cx) then 1 else 0) :
    ∃ r1 r2,
      workerStep (GridStore.typed g) N (precomputeNeighbors N) = some r1 ∧
      r1.newGrid ≠ g ∧
      workerStep (GridStore.typed r1.newGrid) N (precomputeNeighbors N) = some r2 ∧
      r2.newGrid = g := by
  have hg := eq_horizontalBlinker N cx cy g hlen hcells
  subst hg
  have hlen : N * N ≤ (precomputeNeighbors N).length := by rw [length_precomputeNeighbors]
  refine ⟨_, _, workerStep_eq _ N _ hlen, ?_, workerStep_eq _ N _ hlen, ?_⟩
  · show stepGrid _ _ _ ≠ _
    rw [stepGrid_horizontalBlinker N cx cy hN hcx hcy]
    exact horizontalBlinker_ne_vertical N cx cy hN hcx hcy
  · show stepGrid (GridStore.typed (stepGrid _ _ _)) _ _ = _
    rw [stepGrid_horizontalBlinker N cx cy hN hcx hcy,
      stepGrid_verticalBlinker N cx cy hN hcx hcy]

theorem blinker_period_witness :
    ∃ r1 r2,
      workerStep
          (GridStore.typed
            [0, 0, 0, 0, 0, 0, 0, 0, 0, 0, 0, 1, 1, 1, 0, 0, 0, 0, 0, 0, 0, 0, 0, 0, 0])
          5 (precomputeNeighbors 5) = some r1 ∧
      r1.newGrid ≠
        [0, 0, 0, 0, 0, 0, 0, 0, 0, 0, 0, 1, 1, 1, 0, 0, 0, 0, 0, 0, 0, 0, 0, 0, 0] ∧
      workerStep (GridStore.typed r1.newGrid) 5 (precomputeNeighbors 5) = some r2 ∧
      r2.newGrid =
        [0, 0, 0, 0, 0, 0, 0, 0, 0, 0, 0, 1, 1, 1, 0, 0, 0, 0, 0, 0, 0, 0, 0, 0, 0] :=
  blinker_period 5 2 2
    [0, 0, 0, 0, 0, 0, 0, 0, 0, 0, 0, 1, 1, 1, 0, 0, 0, 0, 0, 0, 0, 0, 0, 0, 0]
    (by decide) (by decide) (by decide) (by decide) (by decide)

/-- C6, as the code behaves: let `g` be a grid of side `N ≥ 5` whose only live
cells are the three cells of row `cy` around the column `cx`.  The list
`changes` of the first step has exactly 4 cells, the cells that flip: the two
end cells of the horizontal blinker and the two cells above and below its
middle cell; and the list `changes` of the second step is the same list. -/
theorem blinker_changes (N cx cy : Nat) (g : List Nat) (hN : 5 ≤ N) (hcx : cx < N)
    (hcy : cy < N) (hlen : g.length = N * N)
    (hcells : ∀ x, x < N → ∀ y, y < N → g.getD (x + y * N) 0 =
      if y = cy ∧ (x = wrapPred N cx ∨ x = cx ∨ x = wrapSucc N cx) then 1 else 0) :
    ∃ r1 r2,
      workerStep (GridStore.typed g) N (precomputeNeighbors N) = some r1 ∧
      workerStep (GridStore.typed r1.newGrid) N (precomputeNeighbors N) = some r2 ∧
      r1.changes.length = 4 ∧
      (∀ i, i ∈ r1.changes ↔
        i = wrapPred N cx + cy * N ∨ i = wrapSucc N cx + cy * N ∨
        i = cx + wrapPred N cy * N ∨ i = cx + wrapSucc N cy * N) ∧
      r2.changes = r1.changes := by
  have hg := eq_horizontalBlinker N cx cy g hlen hcells
  subst hg
  have hlen : N * N ≤ (precomputeNeighbors N).length := by rw [length_precomputeNeighbors]
  refine ⟨_, _, workerStep_eq _ N _ hlen, workerStep_eq _ N _ hlen, ?_, ?_, ?_⟩
  · exact length_stepChanges_horizontalBlinker N cx cy hN hcx hcy
  · intro i
    have := mem_stepChanges_horizontalBlinker N cx cy i hN hcx hcy
    simpa [blinkerFlips] using this
  · show stepChanges (GridStore.typed (stepGrid _ _ _)) _ _ = stepChanges _ _ _
    rw [stepGrid_horizontalBlinker N cx cy hN hcx hcy]
    exact stepChanges_verticalBlinker N cx cy hN hcx hcy

theorem blinker_changes_witness :
    ∃ r1 r2,
      workerStep
          (GridStore.typed
            [0, 0, 0, 0, 0, 0, 0, 0, 0, 0, 0, 1, 1, 1, 0, 0, 0, 0, 0, 0, 0, 0, 0, 0, 0])
          5 (precomputeNeighbors 5) = some r1 ∧
      workerStep (GridStore.typed r1.newGrid) 5 (precomputeNeighbors 5) = some r2 ∧
      r1.changes.length = 4 ∧
      (∀ i, i ∈ r1.changes ↔
        i = wrapPred 5 2 + 2 * 5 ∨ i = wrapSucc 5 2 + 2 * 5 ∨
        i = 2 + wrapPred 5 2 * 5 ∨ i = 2 + wrapSucc 5 2 * 5) ∧
      r2.changes = r1.changes :=
  blinker_changes 5 2 2
    [0, 0, 0, 0, 0, 0, 0, 0, 0, 0, 0, 1, 1, 1, 0, 0, 0, 0, 0, 0, 0, 0, 0, 0, 0]
    (by decide) (by decide) (by decide) (by decide) (by decide)

/-- C6, as the claim states it, fails: on the grid of side 5 whose only live
cells are the cells 11, 12 and 13 (the middle row), the first step answers
with the change list `[7, 11, 13, 17]`, which has 4 cells and not 6. -/
theorem blinker_changes_not_six :
    ∃ r, workerStep
          (GridStore.typed
            [0, 0, 0, 0, 0, 0, 0, 0, 0, 0, 0, 1, 1, 1, 0, 0, 0, 0, 0, 0, 0, 0, 0, 0, 0])
          5 (precomputeNeighbors 5) = some r ∧
        r.newGrid =
          [0, 0, 0, 0, 0, 0, 0, 1, 0, 0, 0, 0, 1, 0, 0, 0, 0, 1, 0, 0, 0, 0, 0, 0, 0] ∧
        r.changes = [7, 11, 13, 17] ∧ r.changes.length ≠ 6 := by
  refine ⟨{ newGrid := [0, 0, 0, 0, 0, 0, 0, 1, 0, 0, 0, 0, 1, 0, 0, 0, 0, 1, 0, 0, 0, 0, 0, 0, 0],
            changes := [7, 11, 13, 17] }, by decide, rfl, rfl, by decide⟩

/-- C7 (resize resets the state): after the size-change handler, `setSize(M)`
followed by `createCanvas()`, the grid is a typed array of `M * M` cells that
are all 0, the size is `M`, and the neighbour table has `M * M` entries, each
of length 8. -/
theorem sizeInputChange_resets (s : Game) (M : Nat) :
    (sizeInputChange s M).grid = GridStore.typed (List.replicate (M * M) 0) ∧
      (sizeInputChange s M).grid.length = M * M ∧
      (sizeInputChange s M).size = M ∧
      (sizeInputChange s M).neighbors.length = M * M ∧
      ∀ e ∈ (sizeInputChange s M).neighbors, e.length = 8 := by
  refine ⟨rfl, ?_, rfl, ?_, ?_⟩
  · simp [sizeInputChange, createCanvas, setSize, GridStore.length]
  · exact length_precomputeNeighbors M
  · intro e he
    have he : e ∈ precomputeNeighbors M := he
    rw [precomputeNeighbors_eq_map, List.mem_map] at he
    obtain ⟨i, _, rfl⟩ := he
    rfl

/-! ## The controller -/

theorem stepCell_le_one (grid : GridStore) (neighbors : List (List Int)) (i : Nat) :
    stepCell grid neighbors i = 0 ∨ stepCell grid neighbors i = 1 := by
  unfold stepCell nextCell
  split_ifs <;> simp

theorem gameLoop_fields (s : Game) (hw : s.worker ≠ none) :
    (gameLoop s).grid = s.grid ∧ (gameLoop s).size = s.size ∧
      (gameLoop s).neighbors = s.neighbors ∧ (gameLoop s).isRunning = s.isRunning ∧
      (gameLoop s).worker ≠ none := by
  obtain ⟨size, cellSize, speed, isRunning, grid, neighbors, worker, timers⟩ := s
  cases worker with
  | none => exact absurd rfl hw
  | some posted => cases isRunning <;> simp [gameLoop]

theorem startGame_fields (s : Game) :
    (startGame s).grid = s.grid ∧ (startGame s).size = s.size ∧
      (startGame s).neighbors = s.neighbors := by
  obtain ⟨size, cellSize, speed, isRunning, grid, neighbors, worker, timers⟩ := s
  cases worker with
  | none => simp [startGame]
  | some posted => cases isRunning <;> simp [startGame, gameLoop]

theorem startGame_toggles (s : Game) (hw : s.worker ≠ none) :
    (startGame s).isRunning = (!s.isRunning) ∧ (startGame s).worker ≠ none := by
  obtain ⟨size, cellSize, speed, isRunning, grid, neighbors, worker, timers⟩ := s
  cases worker with
  | none => exact absurd rfl hw
  | some posted => cases isRunning <;> simp [startGame, gameLoop]

theorem put_typed (cells : List Nat) (j : Int) (v : Nat) :
    (GridStore.typed cells).put j v =
      if 0 ≤ j ∧ j.toNat < cells.length then GridStore.typed (cells.set j.toNat (v % 256))
      else GridStore.typed cells := rfl

/-- The invariant carried through the reachable states: the grid is a typed
array of `size * size` cells with values 0 and 1, and the table is the one of
the current size. -/
theorem reachable_typed (s : Game) (h : Reachable s) :
    (∃ cells, s.grid = GridStore.typed cells ∧ cells.length = s.size * s.size ∧
      ∀ v ∈ cells, v = 0 ∨ v = 1) ∧ s.neighbors = precomputeNeighbors s.size := by
  induction h with
  | init size cellSize speed =>
    exact ⟨⟨_, rfl, List.length_replicate _ _, fun v hv => Or.inl (List.eq_of_mem_replicate hv)⟩,
      rfl⟩
  | canvas _ ih =>
    exact ⟨⟨_, rfl, List.length_replicate _ _, fun v hv => Or.inl (List.eq_of_mem_replicate hv)⟩,
      rfl⟩
  | @toggle s x y _ ih =>
    obtain ⟨⟨cells, hg, hl, hb⟩, hn⟩ := ih
    refine ⟨?_, hn⟩
    have hput : ∀ (j : Int) (w : Nat), (w = 0 ∨ w = 1) →
        ∃ c, (GridStore.typed cells).put j w = GridStore.typed c ∧
          c.length = s.size * s.size ∧ ∀ v ∈ c, v = 0 ∨ v = 1 := by
      intro j w hw
      rw [put_typed]
      by_cases h1 : 0 ≤ j ∧ j.toNat < cells.length
      · rw [if_pos h1]
        refine ⟨_, rfl, by rw [List.length_set]; exact hl, fun v hmem => ?_⟩
        rcases List.mem_or_eq_of_mem_set hmem with h | h
        · exact hb v h
        · rcases hw with hw | hw <;> subst hw <;> simp [h]
      · rw [if_neg h1]
        exact ⟨_, rfl, hl, hb⟩
    have hval : ∀ b : Bool, (if b then (0 : Nat) else 1) = 0 ∨ (if b then (0 : Nat) else 1) = 1 := by
      decide
    have := hput (x + y * s.size) _ (hval (truthy (s.grid.get (x + y * s.size))))
    rw [← hg] at this
    exact this
  | clear _ ih =>
    exact ⟨⟨_, rfl, List.length_replicate _ _, fun v hv => Or.inl (List.eq_of_mem_replicate hv)⟩,
      ih.2⟩
  | @randomize s coin _ ih =>
    refine ⟨⟨_, rfl, by simp [randomizeGrid], fun v hv => ?_⟩, ih.2⟩
    rw [List.mem_map] at hv
    obtain ⟨i, _, rfl⟩ := hv
    cases coin i <;> simp
  | resize newSize _ ih =>
    exact ⟨⟨_, rfl, List.length_replicate _ _, fun v hv => Or.inl (List.eq_of_mem_replicate hv)⟩,
      rfl⟩
  | cellSize _ _ ih => exact ih
  | speed _ _ ih => exact ih
  | @start s _ ih =>
    obtain ⟨hg, hs, hn⟩ := startGame_fields s
    rw [hg, hs, hn]
    exact ih
  | @response s r _ hr ih =>
    obtain ⟨_, hn⟩ := ih
    have hlen : s.size * s.size ≤ s.neighbors.length := by
      rw [hn, length_precomputeNeighbors]
    rw [workerStep_eq _ _ _ hlen, Option.some.injEq] at hr
    subst hr
    refine ⟨⟨_, rfl, length_stepGrid _ _ _, fun v hv => ?_⟩, hn⟩
    have hv : v ∈ stepGrid s.grid s.size s.neighbors := hv
    unfold stepGrid at hv
    rw [List.mem_map] at hv
    obtain ⟨i, _, rfl⟩ := hv
    exact stepCell_le_one _ _ i

theorem gridInvariant_construct (size cellSize speed : Nat) :
    GridInvariant (construct size cellSize speed) :=
  ⟨List.length_replicate _ _, fun _ hv => Or.inl (List.eq_of_mem_replicate hv)⟩

/-- C8, as the code behaves: in every state reached from the construction
through `createCanvas`, `toggleCellState`, `clearGrid`, `randomizeGrid`, the
size handler (`setSize` followed by `createCanvas`), `setCellSize`,
`setSpeed`, `startGame` and the application of a step response computed from
the current grid, the grid has exactly `size * size` cells and every value is
0 or 1. -/
theorem reachable_gridInvariant (s : Game) (h : Reachable s) : GridInvariant s := by
  obtain ⟨⟨cells, hg, hl, hb⟩, _⟩ := reachable_typed s h
  unfold GridInvariant
  rw [hg]
  exact ⟨hl, hb⟩

theorem reachable_gridInvariant_witness :
    GridInvariant (toggleCellState (sizeInputChange (construct 2 10 200) 3) 1 1) :=
  reachable_gridInvariant _ (Reachable.toggle 1 1 (Reachable.resize 3 (Reachable.init 2 10 200)))

/-- C8, as the claim states it, fails: the constructed game of size 2
satisfies the invariant, and neither `setSize(3)` on its own (the grid keeps
its 4 cells while `size * size` is 9) nor `stopGame()` (the grid becomes the
empty array while `size * size` is 4) preserves it. -/
theorem gridInvariant_broken :
    GridInvariant (construct 2 10 200) ∧
      (setSize (construct 2 10 200) 3).grid.length = 4 ∧
      (setSize (construct 2 10 200) 3).size = 3 ∧
      ¬ GridInvariant (setSize (construct 2 10 200) 3) ∧
      (stopGame (construct 2 10 200)).grid.length = 0 ∧
      (stopGame (construct 2 10 200)).size = 2 ∧
      ¬ GridInvariant (stopGame (construct 2 10 200)) := by
  refine ⟨gridInvariant_construct 2 10 200, rfl, rfl, ?_, rfl, rfl, ?_⟩
  · intro h
    exact absurd h.1 (by decide)
  · intro h
    exact absurd h.1 (by decide)

/-- C9, as the code behaves: a change of the grid size (`setSize` alone, or
the size handler `setSize` followed by `createCanvas`) leaves the worker and
the responses it has posted in place, and a response computed for the old
size that is delivered after the resize is applied by `worker.onmessage`: the
grid becomes its `newGrid`. -/
theorem resize_keeps_worker (s : Game) (M : Nat) (r : StepResponse)
    (rest : List StepResponse) (h : s.worker = some (r :: rest)) :
    (setSize s M).worker = some (r :: rest) ∧
      (sizeInputChange s M).worker = some (r :: rest) ∧
      (onmessage (sizeInputChange s M) r).grid = GridStore.typed r.newGrid ∧
      (deliver (sizeInputChange s M)).grid = GridStore.typed r.newGrid := by
  refine ⟨h, h, rfl, ?_⟩
  have hw : (sizeInputChange s M).worker = some (r :: rest) := h
  unfold deliver
  rw [hw]
  rfl

theorem resize_keeps_worker_witness :
    (setSize (startGame (construct 2 10 200)) 3).worker =
        some ({ newGrid := [0, 0, 0, 0], changes := [] } :: []) ∧
      (sizeInputChange (startGame (construct 2 10 200)) 3).worker =
        some ({ newGrid := [0, 0, 0, 0], changes := [] } :: []) ∧
      (onmessage (sizeInputChange (startGame (construct 2 10 200)) 3)
          { newGrid := [0, 0, 0, 0], changes := [] }).grid =
        GridStore.typed ({ newGrid := [0, 0, 0, 0], changes := [] } : StepResponse).newGrid ∧
      (deliver (sizeInputChange (startGame (construct 2 10 200)) 3)).grid =
        GridStore.typed ({ newGrid := [0, 0, 0, 0], changes := [] } : StepResponse).newGrid :=
  resize_keeps_worker (startGame (construct 2 10 200)) 3
    { newGrid := [0, 0, 0, 0], changes := [] } [] (by decide)

/-- C9, as the claim states it, fails: a game of size 2 is started, so a
request for the size 2 is with the worker; the size is then changed to 3.  The
worker is still there with its response, and the delivery of that response
replaces the fresh grid of 9 cells by the stale grid of 4 cells. -/
theorem stale_response_applied :
    (sizeInputChange (startGame (construct 2 10 200)) 3).worker =
        some [{ newGrid := [0, 0, 0, 0], changes := [] }] ∧
      (sizeInputChange (startGame (construct 2 10 200)) 3).grid =
        GridStore.typed [0, 0, 0, 0, 0, 0, 0, 0, 0] ∧
      (deliver (sizeInputChange (startGame (construct 2 10 200)) 3)).grid =
        GridStore.typed [0, 0, 0, 0] ∧
      (deliver (sizeInputChange (startGame (construct 2 10 200)) 3)).grid ≠
        (sizeInputChange (startGame (construct 2 10 200)) 3).grid := by
  refine ⟨by decide, by decide, by decide, by decide⟩

/-- C10 (start needs the worker): without a worker `startGame` returns the
state as it is, so the run state, the grid, the size and the table are
unchanged and no request is posted and no timer armed; with a worker it
negates `isRunning` and keeps the worker, so a second `startGame` restores the
run state. -/
theorem startGame_gate (s : Game) :
    (s.worker = none → startGame s = s) ∧
      (s.worker ≠ none →
        (startGame s).isRunning = (!s.isRunning) ∧ (startGame s).worker ≠ none ∧
        (startGame (startGame s)).isRunning = s.isRunning) := by
  constructor
  · intro h
    unfold startGame
    rw [h]
  · intro h
    obtain ⟨h1, h2⟩ := startGame_toggles s h
    obtain ⟨h3, _⟩ := startGame_toggles (startGame s) h2
    refine ⟨h1, h2, ?_⟩
    rw [h3, h1, Bool.not_not]

theorem startGame_gate_witness :
    startGame (stopGame (construct 2 10 200)) = stopGame (construct 2 10 200) ∧
      ((startGame (construct 2 10 200)).isRunning = (!(construct 2 10 200).isRunning) ∧
        (startGame (construct 2 10 200)).worker ≠ none ∧
        (startGame (startGame (construct 2 10 200))).isRunning =
          (construct 2 10 200).isRunning) :=
  ⟨(startGame_gate (stopGame (construct 2 10 200))).1 rfl,
    (startGame_gate (construct 2 10 200)).2 (by decide)⟩

end LifeGameJs
